import Mathlib

/-!
Shallow embedding of `src/src/RestCommandFacility.cpp` (DUNE DAQ
`restCommandFacility`): the command callback bridge, the response-dispatch
loop over the result queue, and the constructor's URI parsing, modelled
faithfully from the C++ source.  C++ strings are `List Char`; `size_t`
arithmetic (including the `std::string::npos` wrap-around that the code
relies on) is Nat arithmetic modulo `2^64`; C++ exceptions are `Except`.
-/

namespace RestCommandFacility

/-- C++ `std::string`, modelled as a list of characters. -/
abbrev Str := List Char

/-- `std::string::npos` for a 64-bit `size_t`. -/
def npos : Nat := 2 ^ 64 - 1

/-- The `size_t` modulus. -/
def szW : Nat := 2 ^ 64

/-- `size_t` addition (wraps modulo `2^64`); the code computes `at+1` with
`at = npos`, which wraps to `0`. -/
def szAdd (a b : Nat) : Nat := (a + b) % szW

/-- `size_t` subtraction (wraps modulo `2^64`); the code computes
`col-(at+1)` where the subtrahend may exceed the minuend. -/
def szSub (a b : Nat) : Nat := (a + szW - b % szW) % szW

/-- First index of character `c` in `s` (`std::string::find(char)`),
as an `Option`. -/
def findCharOpt : Str → Char → Option Nat
  | [], _ => none
  | a :: s, c => if a = c then some 0 else (findCharOpt s c).map (· + 1)

/-- Last index of character `c` in `s` (`std::string::find_last_of` with a
single-character set), as an `Option`. -/
def findLastOpt : Str → Char → Option Nat
  | [], _ => none
  | a :: s, c =>
    match findLastOpt s c with
    | some j => some (j + 1)
    | none => if a = c then some 0 else none

/-- Whether the pattern `pat` occurs in `s` starting at index `i`. -/
def occursAt (s : Str) (i : Nat) (pat : Str) : Bool :=
  decide ((s.drop i).take pat.length = pat)

/-- First index at which the (non-empty) pattern `pat` occurs in `s`
(`std::string::find(const char*)`), as an `Option`. -/
def findSubOpt : Str → Str → Option Nat
  | [], _ => none
  | a :: s, pat =>
    if occursAt (a :: s) 0 pat then some 0 else (findSubOpt s pat).map (· + 1)

/-- `std::string::find(char)`: index or `npos`. -/
def findCharN (s : Str) (c : Char) : Nat := (findCharOpt s c).getD npos

/-- `std::string::find_last_of(char)`: index or `npos`. -/
def findLastN (s : Str) (c : Char) : Nat := (findLastOpt s c).getD npos

/-- `std::string::find(const char*)`: index or `npos`. -/
def findSubN (s : Str) (pat : Str) : Nat := (findSubOpt s pat).getD npos

/-- Errors that can leave the constructor body as C++ exceptions:
`UnsupportedUri` (thrown by the URI guard) or `std::out_of_range` from
`std::string::substr` when its position argument exceeds the length. -/
inductive CtorError
  | unsupportedUri
  | outOfRange
deriving DecidableEq, Repr

/-- `std::string::substr(pos, count)`: throws `std::out_of_range` when
`pos > size()`, otherwise yields up to `count` characters from `pos`. -/
def substrE (s : Str) (pos count : Nat) : Except CtorError Str :=
  if pos ≤ s.length then .ok ((s.drop pos).take count) else .error .outOfRange

/-- `dune::daq::ccm::CommandResult` as constructed and filled by
`commandHandler`: reply address, reply port, and the result text. -/
structure CommandResult where
  answer_addr : Str
  answer_port : Int
  result : Str
deriving DecidableEq, Repr

/-- The fixed success literal `"OK"` stored by `commandHandler`. -/
def okLit : Str := ['O', 'K']

/-- `restCommandFacility::commandHandler`: builds a `CommandResult` for the
reply address, runs `manager_ptr_->execute(object_t::parse(command))` —
modelled by the oracles `jparse` (JSON decoding, may raise) and `execute`
(the manager, may raise), both raising a `what()` message — and stores
`"OK"` on success or the raised message on failure.  The C++ `try`/`catch`
is the `match` on the `Except` value: no failure leaves the function. -/
def commandHandler {J : Type} (jparse : Str → Except Str J)
    (execute : J → Except Str Unit)
    (command : Str) (ansaddr : Str) (port : Int) : CommandResult :=
  let rr : CommandResult := ⟨ansaddr, port, []⟩
  match jparse command >>= execute with
  | .ok _ => { rr with result := okLit }
  | .error e => { rr with result := e }

/-- The facility's manager pointer field `manager_ptr_`.  `none` models a
null or uninitialized pointer (the constructor leaves the field
uninitialized; `run` sets it on entry and nulls it on exit). -/
structure FacilityManagerState (J : Type) where
  manager_ptr_ : Option (J → Except Str Unit)

/-- The manager-pointer state right after the constructor returns: the field
`manager_ptr_` has no initializer in the class and the constructor never
assigns it, so no manager is installed. -/
def ctorManagerState (J : Type) : FacilityManagerState J := ⟨none⟩

/-- `run(manager)` on entry: `manager_ptr_ = &manager`. -/
def runEntry {J : Type} (_s : FacilityManagerState J)
    (m : J → Except Str Unit) : FacilityManagerState J := ⟨some m⟩

/-- `run(manager)` on exit: `manager_ptr_ = nullptr`. -/
def runExit {J : Type} (_s : FacilityManagerState J) :
    FacilityManagerState J := ⟨none⟩

/-- `commandHandler` as actually invoked through the stored pointer: it
dereferences `manager_ptr_` unconditionally (`manager_ptr_->execute(...)`);
with no manager installed the dereference is undefined behaviour, modelled
as `none` (no well-defined `CommandResult`). -/
def commandHandlerViaPtr {J : Type} (mgr : Option (J → Except Str Unit))
    (jparse : Str → Except Str J)
    (command : Str) (ansaddr : Str) (port : Int) : Option CommandResult :=
  match mgr with
  | none => none
  | some execute => some (commandHandler jparse execute command ansaddr port)

/-- `std::future<CommandResult>` as popped by `responseHandler`: an
asynchronous handle carrying the (wall-clock) step at which it resolves and
the `CommandResult` it will yield.  `fut.wait(); fut.get()` blocks until
resolution and returns the value — in the logical model, resolution always
yields `value` and the completion stamp affects only timing, never the
value or the order of the queue. -/
structure PendingOutcome (α : Type) where
  completionTime : Nat
  value : α
deriving DecidableEq, Repr

/-- `fut.wait(); fut.get()`: the resolved `CommandResult` of an outcome. -/
def resolveOutcome {α : Type} (o : PendingOutcome α) : α := o.value

/-- State of the response-dispatch side: the TBB `result_queue_` (FIFO:
producers push at the back, `try_pop` takes the front), the list of results
already delivered by the `ERS_INFO` delivery hook in the order they were
delivered, and the `global_signal` shutdown flag. -/
structure DispatchState (α : Type) where
  queue : List (PendingOutcome α)
  delivered : List α
  signal : Bool
deriving DecidableEq, Repr

/-- Initial dispatcher state: empty queue, nothing delivered, running. -/
def initDispatch (α : Type) : DispatchState α := ⟨[], [], false⟩

/-- Events interleaving producers and the single consumer: `push` is a
transport thread enqueuing a pending outcome (`result_queue_.push` in
`RestEndpoint`), `consume` is one iteration of the `responseHandler` loop,
and `sigStop` is the signal handler setting `global_signal`. -/
inductive DispatchEv (α : Type)
  | push (o : PendingOutcome α)
  | consume
  | sigStop
deriving DecidableEq, Repr

/-- One transition.  A `consume` step mirrors one iteration of
`responseHandler`: if `global_signal` is set the loop has exited and does
nothing; else if the queue is empty it sleeps; else it pops the front
future, waits for it to resolve, and delivers (logs) the result — all
before the next iteration can pop again. -/
def dispatchStep {α : Type} (s : DispatchState α) :
    DispatchEv α → DispatchState α
  | .push o => { s with queue := s.queue ++ [o] }
  | .sigStop => { s with signal := true }
  | .consume =>
    if s.signal then s
    else
      match s.queue with
      | [] => s
      | o :: rest =>
        { s with queue := rest, delivered := s.delivered ++ [resolveOutcome o] }

/-- Run the dispatcher over a trace of events. -/
def dispatchRun {α : Type} (s : DispatchState α) (evs : List (DispatchEv α)) :
    DispatchState α :=
  evs.foldl dispatchStep s

/-- The outcomes pushed by a trace, in push order. -/
def pushedOutcomes {α : Type} : List (DispatchEv α) → List (PendingOutcome α)
  | [] => []
  | .push o :: evs => o :: pushedOutcomes evs
  | _ :: evs => pushedOutcomes evs

/-- Retime every pushed outcome in a trace: change completion stamps
arbitrarily while keeping the pushed values and the interleaving. -/
def retimeEvs {α : Type} (f : Nat → Nat) :
    List (DispatchEv α) → List (DispatchEv α)
  | [] => []
  | .push o :: evs => .push ⟨f o.completionTime, o.value⟩ :: retimeEvs f evs
  | .consume :: evs => .consume :: retimeEvs f evs
  | .sigStop :: evs => .sigStop :: retimeEvs f evs

/-- Retime one pending outcome, keeping its value. -/
def retimeOutcome {α : Type} (f : Nat → Nat) (o : PendingOutcome α) :
    PendingOutcome α := ⟨f o.completionTime, o.value⟩

/-- Retime every queued outcome of a dispatcher state. -/
def retimeState {α : Type} (f : Nat → Nat) (s : DispatchState α) :
    DispatchState α := ⟨s.queue.map (retimeOutcome f), s.delivered, s.signal⟩

/-- The scheme separator pattern `"://"` searched by the constructor. -/
def schemeSepPat : Str := [':', '/', '/']

/-- Exceptions raised inside the constructor's endpoint-setup `try` block:
`std::invalid_argument` / `std::out_of_range` from `std::stoi`, and
`InvalidPort` from `ValidPort::portNumber`.  All of them are caught by the
`catch (const std::exception&)` and only logged. -/
inductive PortError
  | invalidArgument
  | outOfRangeArg
  | invalidPort
deriving DecidableEq, Repr

/-- Whitespace skipped by `std::stoi` (via `std::strtol`). -/
def isCppSpace (c : Char) : Bool :=
  c = ' ' || c = '\t' || c = '\n' || c = '\x0b' || c = '\x0c' || c = '\r'

/-- Numeric value of a decimal digit character. -/
def digitVal (c : Char) : Nat := c.toNat - 48

/-- Value of a string of decimal digits. -/
def digitsToNat (ds : Str) : Nat :=
  ds.foldl (fun acc c => 10 * acc + digitVal c) 0

/-- `INT_MAX` for the 32-bit `int` that `std::stoi` returns. -/
def intMax : Int := 2 ^ 31 - 1

/-- `INT_MIN` for the 32-bit `int` that `std::stoi` returns. -/
def intMin : Int := -(2 ^ 31)

/-- `std::stoi(s)` (base 10): skip leading whitespace, take an optional
sign and then a maximal run of decimal digits (trailing characters are
ignored); raise `std::invalid_argument` when no digit was consumed and
`std::out_of_range` when the value does not fit in `int`. -/
def stoi (s : Str) : Except PortError Int :=
  let s1 := s.dropWhile isCppSpace
  let signed : Int × Str :=
    match s1 with
    | '-' :: r => (-1, r)
    | '+' :: r => (1, r)
    | r => (1, r)
  let ds := signed.2.takeWhile Char.isDigit
  if ds.isEmpty then .error .invalidArgument
  else
    let v : Int := signed.1 * (digitsToNat ds : Int)
    if v < intMin || intMax < v then .error .outOfRangeArg else .ok v

/-- Modelled from the spec: `dune::daq::ccm::ValidPort::portNumber` is
declared in `ValidPort.hpp`, which is not among the given sources.  Per the
spec, the port validator is `validate(int) -> validated port, fails with
InvalidPort`, with the port "converted to integer and validated in range
[1, 65535] — out-of-range or non-numeric fails with InvalidPort". -/
def ValidPort.portNumber (p : Int) : Except PortError Int :=
  if 1 ≤ p ∧ p ≤ 65535 then .ok p else .error .invalidPort

/-- The five local strings the constructor extracts from the URI, in the
order the code computes them (lines 112–116; `iname` is computed but never
used afterwards). -/
structure ParsedFields where
  scheme : Str
  iname : Str
  portstr : Str
  epname : Str
  hostname : Str
deriving DecidableEq, Repr

/-- The URI-parsing prefix of the constructor (lines 106–117):
`col = uri.find_last_of(':')`, `at = uri.find('@')`,
`sep = uri.find("://")`; throw `UnsupportedUri` when `col` or `sep` is
`npos`; then extract the five substrings with `size_t` arithmetic —
notably, `at` is never checked, so when no `'@'` exists `at = npos`,
`at - (sep+3)` is a huge count (clamped by `substr`) and `at + 1` wraps to
`0`. -/
def parseUri (uri : Str) : Except CtorError ParsedFields :=
  let col := findLastN uri ':'
  let atp := findCharN uri '@'
  let sep := findSubN uri schemeSepPat
  if col = npos ∨ sep = npos then .error .unsupportedUri
  else do
    let scheme ← substrE uri 0 sep
    let iname ← substrE uri (szAdd sep 3) npos
    let portstr ← substrE uri (szAdd col 1) npos
    let epname ← substrE uri (szAdd sep 3) (szSub atp (szAdd sep 3))
    let hostname ← substrE uri (szAdd atp 1) (szSub col (szAdd atp 1))
    .ok ⟨scheme, iname, portstr, epname, hostname⟩

/-- What construction produced: the parsed fields, plus the endpoint
argument pair `(hostname, validated port)` when the endpoint-setup `try`
block ran to completion, or `none` when it raised and the `catch` merely
logged `ers::error(UnsupportedUri(...))` — construction completes either
way. -/
structure CtorResult where
  fields : ParsedFields
  endpoint : Option (Str × Int)
deriving DecidableEq, Repr

/-- `restCommandFacility::restCommandFacility(uri)` (lines 99–138), as far
as its control flow is observable: parse the URI (throwing `UnsupportedUri`
only from the guard), then inside a `try` block convert and validate the
port and build the `RestEndpoint(hostname, port, ...)`; any exception in
that block is caught and logged, never re-thrown, so the object is built
with the endpoint unset.  (`RestEndpoint`'s own constructor and `init` are
external collaborators here; an exception from them would land in the same
log-only `catch`.) -/
def restCommandFacilityCtor (uri : Str) : Except CtorError CtorResult :=
  match parseUri uri with
  | .error e => .error e
  | .ok f =>
    match stoi f.portstr >>= ValidPort.portNumber with
    | .error _ => .ok ⟨f, none⟩
    | .ok port => .ok ⟨f, some (f.hostname, port)⟩

/-- View a Lean string literal as the C++ string model. -/
def strL (s : String) : Str := s.data

end RestCommandFacility

namespace RestCommandFacility

/-- C1: for every invocation of the command callback bridge, if decoding and
the manager's `execute` both succeed the returned `CommandResult.result` is
the fixed success literal `"OK"`; if decoding or the manager raises with
message `M`, `CommandResult.result` equals `M`; and the callback always
returns a `CommandResult` value (the embedded function is total: every
failure of the oracles is consumed by the `match` that models the
`try`/`catch`, never re-raised). -/
theorem C1_callback_result {J : Type} (jparse : Str → Except Str J)
    (execute : J → Except Str Unit) (command ansaddr : Str) (port : Int) :
    ((jparse command >>= execute) = .ok () →
      (commandHandler jparse execute command ansaddr port).result = okLit) ∧
    (∀ M : Str, (jparse command >>= execute) = .error M →
      (commandHandler jparse execute command ansaddr port).result = M) := by
  constructor
  · intro h
    simp [commandHandler, h]
  · intro M h
    simp [commandHandler, h]

/-- Witness for C1 at concrete inputs: a succeeding command yields `"OK"`
and a command whose manager raises `"boom"` yields `"boom"`. -/
theorem C1_callback_result_witness :
    ((fun _ : Str => (Except.ok () : Except Str Unit)) ['x'] >>=
        (fun _ => Except.ok ())) = .ok () ∧
    (commandHandler (fun _ : Str => (Except.ok () : Except Str Unit))
      (fun _ => Except.ok ()) ['x'] ['h'] 8 |>.result) = okLit := by
  refine ⟨by rfl, ?_⟩
  exact (C1_callback_result (fun _ : Str => (Except.ok () : Except Str Unit))
    (fun _ => Except.ok ()) ['x'] ['h'] 8).1 (by rfl)

lemma szW_pos : 0 < szW := by unfold szW; positivity

lemma npos_lt_szW : npos < szW := by unfold npos szW; omega

lemma szAdd_eq_of_lt {a b : Nat} (h : a + b < szW) : szAdd a b = a + b :=
  Nat.mod_eq_of_lt h

lemma szAdd_npos_one : szAdd npos 1 = 0 := by
  unfold szAdd npos szW
  norm_num

lemma szSub_eq_of_le {a b : Nat} (ha : a < szW) (hb : b ≤ a) :
    szSub a b = a - b := by
  unfold szSub
  rw [Nat.mod_eq_of_lt (lt_of_le_of_lt hb ha)]
  have h1 : a + szW - b = (a - b) + szW := by omega
  rw [h1, Nat.add_mod_right, Nat.mod_eq_of_lt (by omega)]

lemma szSub_zero {a : Nat} (ha : a < szW) : szSub a 0 = a := by
  simpa using szSub_eq_of_le ha (Nat.zero_le a)

lemma substrE_ok (s : Str) (pos count : Nat) (h : pos ≤ s.length) :
    substrE s pos count = .ok ((s.drop pos).take count) := by
  simp [substrE, h]

lemma findCharOpt_eq_none_iff (c : Char) :
    ∀ s : Str, findCharOpt s c = none ↔ c ∉ s
  | [] => by simp [findCharOpt]
  | a :: s => by
    by_cases h : a = c
    · subst h
      simp [findCharOpt]
    · have hrec := findCharOpt_eq_none_iff c s
      have hca : ¬ c = a := fun hca => h hca.symm
      simp [findCharOpt, h, hrec, List.mem_cons, hca]

lemma findCharOpt_append_sep (c : Char) :
    ∀ (xs ys : Str), c ∉ xs →
      findCharOpt (xs ++ c :: ys) c = some xs.length
  | [], ys, _ => by simp [findCharOpt]
  | a :: xs, ys, h => by
    have ha : ¬ a = c := by rintro rfl; exact h (List.mem_cons_self a xs)
    have hrec := findCharOpt_append_sep c xs ys
      (fun hm => h (List.mem_cons_of_mem a hm))
    simp [findCharOpt, ha, hrec]

lemma findLastOpt_eq_none_iff (c : Char) :
    ∀ s : Str, findLastOpt s c = none ↔ c ∉ s
  | [] => by simp [findLastOpt]
  | a :: s => by
    have hrec := findLastOpt_eq_none_iff c s
    simp only [findLastOpt]
    cases hs : findLastOpt s c with
    | some j =>
      have hc : c ∈ s := by
        by_contra hc
        rw [hrec.2 hc] at hs
        cases hs
      simp [List.mem_cons, hc]
    | none =>
      have hc : c ∉ s := hrec.1 hs
      by_cases h : a = c
      · subst h
        simp
      · have hca : ¬ c = a := fun hca => h hca.symm
        simp [h, List.mem_cons, hc, hca]

lemma findLastOpt_some_lt (c : Char) :
    ∀ {s : Str} {j : Nat}, findLastOpt s c = some j → j < s.length
  | [], j => by simp [findLastOpt]
  | a :: s, j => by
    simp only [findLastOpt]
    cases hs : findLastOpt s c with
    | some i =>
      intro h
      injection h with h
      have := findLastOpt_some_lt c hs
      simp only [List.length_cons]
      omega
    | none =>
      by_cases hac : a = c
      · simp only [if_pos hac]
        intro h
        injection h with h
        simp [← h]
      · simp [if_neg hac]

lemma findLastOpt_append (c : Char) :
    ∀ (xs ys : Str),
      findLastOpt (xs ++ ys) c =
        match findLastOpt ys c with
        | some j => some (xs.length + j)
        | none => findLastOpt xs c
  | [], ys => by cases h : findLastOpt ys c <;> simp [h, findLastOpt]
  | a :: xs, ys => by
    simp only [List.cons_append, findLastOpt, List.append_eq]
    rw [findLastOpt_append c xs ys]
    cases h : findLastOpt ys c with
    | some j =>
      simp only [List.length_cons, Option.some.injEq]
      omega
    | none => simp [findLastOpt]

lemma findLastOpt_last_sep (c : Char) (xs ys : Str) (h : c ∉ ys) :
    findLastOpt (xs ++ c :: ys) c = some xs.length := by
  rw [findLastOpt_append]
  have h0 : findLastOpt (c :: ys) c = some 0 := by
    simp [findLastOpt, (findLastOpt_eq_none_iff c ys).2 h]
  rw [h0]
  simp

lemma findSubOpt_some_occursAt :
    ∀ {s pat : Str} {i : Nat},
      findSubOpt s pat = some i → occursAt s i pat = true
  | [], pat, i => by simp [findSubOpt]
  | a :: s, pat, i => by
    simp only [findSubOpt]
    by_cases h : occursAt (a :: s) 0 pat
    · simp only [if_pos h]
      intro hi
      injection hi with hi
      exact hi ▸ h
    · simp only [if_neg h, Option.map_eq_some']
      rintro ⟨j, hj, rfl⟩
      have hrec := findSubOpt_some_occursAt hj
      unfold occursAt at hrec ⊢
      simpa [List.drop_succ_cons] using hrec

lemma occursAt_add_length_le {s pat : Str} {i : Nat} (hne : pat ≠ [])
    (h : occursAt s i pat = true) : i + pat.length ≤ s.length := by
  unfold occursAt at h
  have h2 : (s.drop i).take pat.length = pat := by
    exact of_decide_eq_true h
  have hl := congrArg List.length h2
  simp only [List.length_take, List.length_drop] at hl
  have hle : pat.length ≤ s.length - i := hl ▸ Nat.min_le_right _ _
  have hp : 0 < pat.length := List.length_pos.2 hne
  omega

lemma findSubOpt_some_bound {s pat : Str} {i : Nat} (hne : pat ≠ [])
    (h : findSubOpt s pat = some i) : i + pat.length ≤ s.length :=
  occursAt_add_length_le hne (findSubOpt_some_occursAt h)

lemma findSubOpt_mem {s pat : Str} {i : Nat} {c : Char} (hc : c ∈ pat)
    (h : findSubOpt s pat = some i) : c ∈ s := by
  have hocc := findSubOpt_some_occursAt h
  unfold occursAt at hocc
  have h2 : (s.drop i).take pat.length = pat := of_decide_eq_true hocc
  have hsub : List.Sublist pat s := by
    have h3 : List.Sublist ((s.drop i).take pat.length) (s.drop i) :=
      List.take_sublist _ _
    have h4 : List.Sublist (s.drop i) s := List.drop_sublist _ _
    exact h2 ▸ h3.trans h4
  exact hsub.subset hc

lemma findSubOpt_append_sep (c : Char) (t : Str) :
    ∀ (xs ys : Str), c ∉ xs → ys.take t.length = t →
      findSubOpt (xs ++ c :: ys) (c :: t) = some xs.length
  | [], ys, _, hocc => by
    simp [findSubOpt, occursAt, hocc]
  | a :: xs, ys, h, hocc => by
    have ha : ¬ a = c := by rintro rfl; exact h (List.mem_cons_self a xs)
    have hrec := findSubOpt_append_sep c t xs ys
      (fun hm => h (List.mem_cons_of_mem a hm)) hocc
    simp [findSubOpt, occursAt, ha, hrec]

lemma findCharOpt_some_lt (c : Char) :
    ∀ {s : Str} {k : Nat}, findCharOpt s c = some k → k < s.length
  | [], k => by simp [findCharOpt]
  | a :: s, k => by
    simp only [findCharOpt]
    by_cases h : a = c
    · simp only [if_pos h]
      intro hk
      injection hk with hk
      simp [← hk]
    · simp only [if_neg h, Option.map_eq_some']
      rintro ⟨m, hm, rfl⟩
      have := findCharOpt_some_lt c hm
      simp only [List.length_cons]
      omega

/-- When the guard passes — `"://"` found at `i` and a last `':'` found at
`j` — the constructor's five `substr` calls all succeed and produce exactly
these values (still in terms of the unchecked `find('@')` result). -/
lemma parseUri_eq_of_found (uri : Str) (i j : Nat)
    (hlen : uri.length + 3 < npos)
    (hsep : findSubOpt uri schemeSepPat = some i)
    (hcol : findLastOpt uri ':' = some j) :
    parseUri uri = .ok
      ⟨uri.take i,
       uri.drop (i + 3),
       uri.drop (j + 1),
       (uri.drop (i + 3)).take (szSub (findCharN uri '@') (i + 3)),
       (uri.drop (szAdd (findCharN uri '@') 1)).take
         (szSub j (szAdd (findCharN uri '@') 1))⟩ := by
  have hi3 : i + 3 ≤ uri.length := by
    have h := findSubOpt_some_bound (by decide) hsep
    simpa [schemeSepPat] using h
  have hj : j < uri.length := findLastOpt_some_lt _ hcol
  have hlsz : uri.length < npos := by omega
  have hW := npos_lt_szW
  have hadd3 : szAdd i 3 = i + 3 := szAdd_eq_of_lt (by omega)
  have haddj : szAdd j 1 = j + 1 := szAdd_eq_of_lt (by omega)
  have hpos5 : szAdd (findCharN uri '@') 1 ≤ uri.length := by
    unfold findCharN
    cases hat : findCharOpt uri '@' with
    | none => simp [szAdd_npos_one]
    | some k =>
      have hk := findCharOpt_some_lt _ hat
      simp only [Option.getD_some]
      rw [szAdd_eq_of_lt (by omega)]
      omega
  have hdi : (uri.drop (i + 3)).length ≤ npos := by
    rw [List.length_drop]; omega
  have hdj : (uri.drop (j + 1)).length ≤ npos := by
    rw [List.length_drop]; omega
  simp only [parseUri, findLastN, findCharN, findSubN, hsep, hcol,
    Option.getD_some]
  rw [if_neg (by push_neg; exact ⟨by omega, by omega⟩)]
  rw [hadd3, haddj]
  rw [substrE_ok uri 0 i (by omega),
      substrE_ok uri (i + 3) npos (by omega),
      substrE_ok uri (j + 1) npos (by omega),
      substrE_ok uri (i + 3) (szSub ((findCharOpt uri '@').getD npos) (i + 3))
        (by omega),
      substrE_ok uri (szAdd ((findCharOpt uri '@').getD npos) 1)
        (szSub j (szAdd ((findCharOpt uri '@').getD npos) 1))
        (by simpa [findCharN] using hpos5)]
  simp only [List.drop_zero, List.take_of_length_le hdi,
    List.take_of_length_le hdj]
  rfl

/-- Constructor result when URI parsing throws. -/
lemma ctor_of_parse_err (uri : Str) (e : CtorError)
    (hf : parseUri uri = .error e) :
    restCommandFacilityCtor uri = .error e := by
  unfold restCommandFacilityCtor
  simp only [hf]

/-- Constructor result when parsing succeeds but the port path raises:
the exception is caught and logged, construction completes. -/
lemma ctor_of_port_err (uri : Str) (f : ParsedFields) (pe : PortError)
    (hf : parseUri uri = .ok f)
    (hport : (stoi f.portstr >>= ValidPort.portNumber) = .error pe) :
    restCommandFacilityCtor uri = .ok ⟨f, none⟩ := by
  unfold restCommandFacilityCtor
  simp only [hf, hport]

/-- Constructor result when parsing and port validation both succeed. -/
lemma ctor_of_port_ok (uri : Str) (f : ParsedFields) (p : Int)
    (hf : parseUri uri = .ok f)
    (hport : (stoi f.portstr >>= ValidPort.portNumber) = .ok p) :
    restCommandFacilityCtor uri = .ok ⟨f, some (f.hostname, p)⟩ := by
  unfold restCommandFacilityCtor
  simp only [hf, hport]

/-- When the guard passes, construction always completes: any failure of
the port conversion, validation or endpoint setup is caught and logged. -/
lemma ctorOk_of_found (uri : Str) (i j : Nat)
    (hlen : uri.length + 3 < npos)
    (hsep : findSubOpt uri schemeSepPat = some i)
    (hcol : findLastOpt uri ':' = some j) :
    ∃ r, restCommandFacilityCtor uri = .ok r := by
  have hp := parseUri_eq_of_found uri i j hlen hsep hcol
  cases hsp : stoi (uri.drop (j + 1)) >>= ValidPort.portNumber with
  | error pe => exact ⟨_, ctor_of_port_err uri _ pe hp hsp⟩
  | ok v => exact ⟨_, ctor_of_port_ok uri _ v hp hsp⟩

lemma retimeEvs_eq_map {α : Type} (f : Nat → Nat) :
    ∀ evs : List (DispatchEv α),
      retimeEvs f evs = evs.map (fun e =>
        match e with
        | .push o => .push (retimeOutcome f o)
        | .consume => .consume
        | .sigStop => .sigStop)
  | [] => rfl
  | .push _ :: evs => by simp [retimeEvs, retimeEvs_eq_map f evs, retimeOutcome]
  | .consume :: evs => by simp [retimeEvs, retimeEvs_eq_map f evs]
  | .sigStop :: evs => by simp [retimeEvs, retimeEvs_eq_map f evs]

/-- The sequence `delivered ++ values of the still-queued outcomes` only
ever grows at the back (by pushes); a consume step moves the queue's front
value to the back of `delivered`, so the concatenation is preserved. -/
lemma dispatchRun_append_inv {α : Type} :
    ∀ (evs : List (DispatchEv α)) (s : DispatchState α),
      (dispatchRun s evs).delivered ++
          (dispatchRun s evs).queue.map resolveOutcome =
        s.delivered ++ s.queue.map resolveOutcome ++
          (pushedOutcomes evs).map resolveOutcome
  | [], s => by simp [dispatchRun, pushedOutcomes]
  | .push o :: evs, s => by
    have ih := dispatchRun_append_inv evs { s with queue := s.queue ++ [o] }
    simp only [dispatchRun, List.foldl_cons, dispatchStep, pushedOutcomes] at *
    simp only [List.map_append, List.map_cons, List.map_nil] at *
    rw [ih]
    simp [List.append_assoc]
  | .sigStop :: evs, s => by
    have ih := dispatchRun_append_inv evs { s with signal := true }
    simp only [dispatchRun, List.foldl_cons, dispatchStep, pushedOutcomes] at *
    exact ih
  | .consume :: evs, s => by
    simp only [dispatchRun, List.foldl_cons, dispatchStep, pushedOutcomes]
    by_cases hsig : s.signal
    · have ih := dispatchRun_append_inv evs s
      simpa [hsig, dispatchRun] using ih
    · match hq : s.queue with
      | [] =>
        have ih := dispatchRun_append_inv evs s
        simpa [hsig, hq, dispatchRun] using ih
      | o :: rest =>
        have ih := dispatchRun_append_inv evs
          { s with queue := rest, delivered := s.delivered ++ [resolveOutcome o] }
        simp only [hsig, hq, if_neg, Bool.false_eq_true, not_false_iff] at *
        simp only [dispatchRun] at ih
        rw [ih]
        simp [List.append_assoc]

/-- Retiming the pushed outcomes commutes with running the dispatcher: the
whole run is unchanged except for the stamps still sitting in the queue. -/
lemma dispatchRun_retime {α : Type} (f : Nat → Nat) :
    ∀ (evs : List (DispatchEv α)) (s : DispatchState α),
      dispatchRun (retimeState f s) (retimeEvs f evs) =
        retimeState f (dispatchRun s evs)
  | [], s => by simp [dispatchRun, retimeEvs]
  | .push o :: evs, s => by
    have ih := dispatchRun_retime f evs { s with queue := s.queue ++ [o] }
    simp only [retimeEvs, dispatchRun, List.foldl_cons, dispatchStep] at *
    rw [← ih]
    simp [retimeState, retimeOutcome]
  | .sigStop :: evs, s => by
    have ih := dispatchRun_retime f evs { s with signal := true }
    simp only [retimeEvs, dispatchRun, List.foldl_cons, dispatchStep] at *
    rw [← ih]
    simp [retimeState]
  | .consume :: evs, s => by
    simp only [retimeEvs, dispatchRun, List.foldl_cons, dispatchStep]
    by_cases hsig : s.signal
    · have ih := dispatchRun_retime f evs s
      simpa [hsig, retimeState, dispatchRun] using ih
    · match hq : s.queue with
      | [] =>
        have ih := dispatchRun_retime f evs s
        simpa [hsig, hq, retimeState, dispatchRun] using ih
      | o :: rest =>
        have ih := dispatchRun_retime f evs
          { s with queue := rest, delivered := s.delivered ++ [resolveOutcome o] }
        simp only [retimeState, hq, hsig, List.map_cons, if_neg,
          Bool.false_eq_true, not_false_iff, dispatchRun] at *
        rw [← ih]
        simp [retimeOutcome, resolveOutcome]

/-- C9 counterexample: the claim says `CommandResult.result` is never the
empty string, but `rr` is initialised with `""` and the `catch` stores the
raised `what()` text verbatim, so a manager raising an empty message leaves
`result` empty.  Concretely, with the manager raising `""` on command
`"x"`, the returned result text is the empty string. -/
theorem C9_counterexample :
    (commandHandler (fun _ : Str => (Except.ok () : Except Str Unit))
      (fun _ => Except.error ([] : Str)) ['x'] ['h'] 8).result = [] := by
  rfl

/-- C9 amended: `commandHandler` stores the raised message `M` exactly on
failure and the success literal `"OK"` on success; the result is non-empty
and distinguishes the two cases provided the manager's raised message is
itself non-empty and different from `"OK"` — the bridge copies messages
verbatim and cannot enforce this for degenerate messages. -/
theorem C9_result_discriminates {J : Type} (jparse : Str → Except Str J)
    (execute : J → Except Str Unit) (command ansaddr : Str) (port : Int)
    (M : Str) (hM : (jparse command >>= execute) = .error M)
    (hne : M ≠ []) (hok : M ≠ okLit) :
    (commandHandler jparse execute command ansaddr port).result = M ∧
    (commandHandler jparse execute command ansaddr port).result ≠ [] ∧
    (commandHandler jparse execute command ansaddr port).result ≠ okLit := by
  refine ⟨?_, ?_, ?_⟩ <;> simp [commandHandler, hM, hne, hok]

/-- Witness for the amended C9 at a concrete raising manager. -/
theorem C9_result_discriminates_witness :
    ((fun _ : Str => (Except.ok () : Except Str Unit)) ['x'] >>=
        (fun _ => (Except.error ['b', 'a', 'd'] : Except Str Unit))) =
      .error ['b', 'a', 'd'] ∧
    (['b', 'a', 'd'] : Str) ≠ [] ∧ (['b', 'a', 'd'] : Str) ≠ okLit ∧
    (commandHandler (fun _ : Str => (Except.ok () : Except Str Unit))
      (fun _ => Except.error ['b', 'a', 'd']) ['x'] ['h'] 8).result =
      ['b', 'a', 'd'] := by
  refine ⟨by rfl, by decide, by decide, ?_⟩
  exact (C9_result_discriminates (fun _ : Str => (Except.ok () : Except Str Unit))
    (fun _ => Except.error ['b', 'a', 'd']) ['x'] ['h'] 8
    ['b', 'a', 'd'] (by rfl) (by decide) (by decide)).1

/-- C2: for every interleaving of producer pushes, consumer iterations and
signal events, the dispatcher delivers results strictly in enqueue (FIFO)
order: the delivered sequence together with the still-queued values is
exactly the pushed sequence in push order, so what has been delivered is
precisely the earliest-pushed prefix in its original relative order; and
the delivered sequence is unchanged under arbitrary retiming of the
outcomes' completion stamps — completion order never influences delivery
order, because each popped future is fully resolved and delivered before
the next pop. -/
theorem C2_fifo_delivery {α : Type} (evs : List (DispatchEv α))
    (f : Nat → Nat) :
    ((dispatchRun (initDispatch α) evs).delivered ++
        (dispatchRun (initDispatch α) evs).queue.map resolveOutcome =
      (pushedOutcomes evs).map resolveOutcome) ∧
    ((dispatchRun (initDispatch α) evs).delivered =
      ((pushedOutcomes evs).map resolveOutcome).take
        (dispatchRun (initDispatch α) evs).delivered.length) ∧
    ((dispatchRun (initDispatch α) (retimeEvs f evs)).delivered =
      (dispatchRun (initDispatch α) evs).delivered) := by
  simp only [initDispatch]
  have hinv := dispatchRun_append_inv evs
    (⟨[], [], false⟩ : DispatchState α)
  simp only [List.map_nil, List.append_nil, List.nil_append] at hinv
  refine ⟨hinv, ?_, ?_⟩
  · rw [← hinv, List.take_left]
  · have hret := dispatchRun_retime f evs (⟨[], [], false⟩ : DispatchState α)
    have hinit : retimeState f (⟨[], [], false⟩ : DispatchState α) =
        ⟨[], [], false⟩ := by
      simp [retimeState]
    rw [hinit] at hret
    rw [hret]
    simp [retimeState]

/-- C5 counterexample: with `global_signal` already set and one pending
outcome still queued, further iterations of the `responseHandler` loop
deliver and log nothing (the `while (!global_signal)` test has already
failed, and the destructor only joins the thread), so the queued entry is
silently discarded — contradicting drained-or-logged. -/
theorem C5_counterexample :
    (dispatchRun
        (⟨[⟨0, (⟨['h'], 1, okLit⟩ : CommandResult)⟩], [], true⟩ :
          DispatchState CommandResult)
        [.consume, .consume, .consume]).delivered = [] ∧
    (dispatchRun
        (⟨[⟨0, (⟨['h'], 1, okLit⟩ : CommandResult)⟩], [], true⟩ :
          DispatchState CommandResult)
        [.consume, .consume, .consume]).queue ≠ [] := by
  refine ⟨rfl, by decide⟩

/-- C5 amended: once `ShutdownSignal` is set the dispatcher loop observes
it and exits — every further consumer iteration is a no-op — but the
outcomes still queued at that moment are neither resolved, delivered nor
logged: the state is left exactly as it was, and the destructor merely
joins the worker; remaining entries are silently discarded, not
drained-or-logged. -/
theorem C5_shutdown_discards {α : Type} (s : DispatchState α)
    (evs : List (DispatchEv α)) (hsig : s.signal = true)
    (hcons : ∀ e ∈ evs, e = DispatchEv.consume) :
    dispatchRun s evs = s := by
  induction evs with
  | nil => rfl
  | cons e evs ih =>
    have he : e = DispatchEv.consume := hcons e (List.mem_cons_self e evs)
    subst he
    have hstep : dispatchStep s DispatchEv.consume = s := by
      simp [dispatchStep, hsig]
    simp only [dispatchRun, List.foldl_cons, hstep]
    exact ih fun e hmem => hcons e (List.mem_cons_of_mem _ hmem)

/-- Witness for the amended C5: a stopped dispatcher with one queued
outcome is left untouched by three further consumer iterations. -/
theorem C5_shutdown_discards_witness :
    ((⟨[⟨0, (⟨['h'], 1, okLit⟩ : CommandResult)⟩], [], true⟩ :
        DispatchState CommandResult).signal = true) ∧
    dispatchRun
        (⟨[⟨0, (⟨['h'], 1, okLit⟩ : CommandResult)⟩], [], true⟩ :
          DispatchState CommandResult)
        [.consume, .consume] =
      (⟨[⟨0, (⟨['h'], 1, okLit⟩ : CommandResult)⟩], [], true⟩ :
        DispatchState CommandResult) := by
  refine ⟨rfl, ?_⟩
  exact C5_shutdown_discards _ [.consume, .consume] rfl (by decide)

/-- C3 counterexample: the claim says an out-of-range port makes
construction fail with `InvalidPort` so the object cannot be built, but for
`"rest://ep1@localhost:99999"` (port 99999 > 65535) the `InvalidPort`
exception is caught by the constructor's log-only `catch`: construction
returns normally (the endpoint is simply left unset). -/
theorem C3_counterexample :
    restCommandFacilityCtor (strL "rest://ep1@localhost:99999") =
      .ok ⟨⟨strL "rest", strL "ep1@localhost:99999", strL "99999",
        strL "ep1", strL "localhost"⟩, none⟩ := by
  rfl

/-- C3 amended: a non-numeric or out-of-range port substring makes the
port conversion/validation raise (`std::invalid_argument`,
`std::out_of_range` or `InvalidPort`), but the exception is caught inside
the constructor and only logged via `ers::error`: construction still
completes, with the parsed fields intact and the endpoint unset — the
object is built. -/
theorem C3_invalid_port_logged (uri : Str) (f : ParsedFields)
    (pe : PortError) (hf : parseUri uri = .ok f)
    (hport : (stoi f.portstr >>= ValidPort.portNumber) = .error pe) :
    restCommandFacilityCtor uri = .ok ⟨f, none⟩ := by
  simp [restCommandFacilityCtor, hf, hport]

/-- Witness for the amended C3 at `"rest://ep1@localhost:99999"`. -/
theorem C3_invalid_port_logged_witness :
    parseUri (strL "rest://ep1@localhost:99999") =
      .ok ⟨strL "rest", strL "ep1@localhost:99999", strL "99999",
        strL "ep1", strL "localhost"⟩ ∧
    (stoi (strL "99999") >>= ValidPort.portNumber) =
      .error PortError.invalidPort ∧
    restCommandFacilityCtor (strL "rest://ep1@localhost:99999") =
      .ok ⟨⟨strL "rest", strL "ep1@localhost:99999", strL "99999",
        strL "ep1", strL "localhost"⟩, none⟩ := by
  refine ⟨by rfl, by rfl, ?_⟩
  exact C3_invalid_port_logged (strL "rest://ep1@localhost:99999")
    ⟨strL "rest", strL "ep1@localhost:99999", strL "99999",
      strL "ep1", strL "localhost"⟩ PortError.invalidPort (by rfl) (by rfl)

/-- C4 counterexample: `"rest://localhost:12345"` contains `"://"` and a
trailing `:12345` but no `'@'`; the claim says construction must fail with
`InvalidUri`, but the code never checks `find('@')`: `at = npos`, the
`size_t` arithmetic wraps (`at+1 = 0`, the `at-(sep+3)` count is clamped),
and construction succeeds with the garbage partial parse
`name = "localhost:12345"`, `host = "rest://localhost"` and a fully
set-up endpoint on port 12345. -/
theorem C4_counterexample :
    restCommandFacilityCtor (strL "rest://localhost:12345") =
      .ok ⟨⟨strL "rest", strL "localhost:12345", strL "12345",
        strL "localhost:12345", strL "rest://localhost"⟩,
        some (strL "rest://localhost", 12345)⟩ := by
  rfl

/-- C7 counterexample: the claim says every successfully constructed
facility has all four fields non-empty and a port in [1, 65535]; but for
the URI `"://@:"` the guard passes (`"://"` at 0, last `':'` at 4), every
extracted field is empty, the port conversion fails and is merely logged —
yet construction succeeds. -/
theorem C7_counterexample :
    restCommandFacilityCtor (strL "://@:") =
      .ok ⟨⟨[], strL "@:", [], [], []⟩, none⟩ := by
  rfl

/-- C7 amended: successful construction guarantees neither non-empty
fields nor a validated port — the constructor performs no emptiness checks
and logs (rather than re-throws) port-validation failures.  What does hold:
whenever construction succeeds with the endpoint actually set up, the
port passed to the endpoint was validated into [1, 65535] and the host
passed is exactly the parsed host field; and the parsed fields are local
values fixed at construction (nothing ever mutates them afterwards). -/
theorem C7_endpoint_port_valid (uri : Str) (f : ParsedFields) (h : Str)
    (p : Int)
    (hctor : restCommandFacilityCtor uri = .ok ⟨f, some (h, p)⟩) :
    1 ≤ p ∧ p ≤ 65535 ∧ h = f.hostname := by
  unfold restCommandFacilityCtor at hctor
  cases hpu : parseUri uri with
  | error e => simp only [hpu] at hctor; simp at hctor
  | ok g =>
    simp only [hpu] at hctor
    cases hsp : stoi g.portstr >>= ValidPort.portNumber with
    | error pe => simp only [hsp] at hctor; simp at hctor
    | ok v =>
      simp only [hsp] at hctor
      simp only [Except.ok.injEq, CtorResult.mk.injEq, Option.some.injEq,
        Prod.mk.injEq] at hctor
      obtain ⟨hg, hh, hv⟩ := hctor
      cases hst : stoi g.portstr with
      | error e2 => rw [hst] at hsp; simp [Bind.bind, Except.bind] at hsp
      | ok w =>
        rw [hst] at hsp
        simp only [Bind.bind, Except.bind] at hsp
        unfold ValidPort.portNumber at hsp
        by_cases hr : 1 ≤ w ∧ w ≤ 65535
        · rw [if_pos hr] at hsp
          injection hsp with hwv
          have hpw : p = w := by rw [← hv, ← hwv]
          have hhost : h = f.hostname := by rw [← hh, hg]
          exact ⟨hpw ▸ hr.1, hpw ▸ hr.2, hhost⟩
        · rw [if_neg hr] at hsp
          cases hsp

/-- Witness for the amended C7 at `"rest://ep1@localhost:12345"`. -/
theorem C7_endpoint_port_valid_witness :
    restCommandFacilityCtor (strL "rest://ep1@localhost:12345") =
      .ok ⟨⟨strL "rest", strL "ep1@localhost:12345", strL "12345",
        strL "ep1", strL "localhost"⟩,
        some (strL "localhost", 12345)⟩ ∧
    (1 ≤ (12345 : Int) ∧ (12345 : Int) ≤ 65535 ∧
      strL "localhost" =
        (⟨strL "rest", strL "ep1@localhost:12345", strL "12345",
          strL "ep1", strL "localhost"⟩ : ParsedFields).hostname) := by
  refine ⟨by rfl, ?_⟩
  exact C7_endpoint_port_valid (strL "rest://ep1@localhost:12345")
    ⟨strL "rest", strL "ep1@localhost:12345", strL "12345",
      strL "ep1", strL "localhost"⟩ (strL "localhost") 12345 (by rfl)

/-- C8 counterexample: `"rest://ep1@localhost"` lacks a trailing
`:<port>`, so the claim requires construction to fail with `InvalidUri`;
but `find_last_of(':')` finds the `':'` of `"://"` itself (index 4), the
guard passes, the port substring becomes `"//ep1@localhost"`, and the
`std::stoi` failure is caught and logged — construction completes. -/
theorem C8_counterexample :
    restCommandFacilityCtor (strL "rest://ep1@localhost") =
      .ok ⟨⟨strL "rest", strL "ep1@localhost", strL "//ep1@localhost",
        strL "ep1", strL "localhost"⟩, none⟩ := by
  rfl

/-- C8 amended: construction fails with `UnsupportedUri` exactly when the
URI lacks the `"://"` scheme separator.  The guard also tests
`find_last_of(':') == npos`, but a string containing `"://"` always
contains a `':'`, so that test adds nothing; in particular a URI with
`"://"` but no trailing `:<port>` is *not* rejected — parsing proceeds and
the port-conversion failure is caught and logged, construction completing
normally. -/
theorem C8_fails_iff_no_scheme_sep (uri : Str)
    (hlen : uri.length + 3 < npos) :
    restCommandFacilityCtor uri = .error CtorError.unsupportedUri ↔
      findSubOpt uri schemeSepPat = none := by
  constructor
  · intro herr
    cases hfs : findSubOpt uri schemeSepPat with
    | none => rfl
    | some i =>
      have hcmem : (':' : Char) ∈ uri := findSubOpt_mem (by decide) hfs
      have hcne : findLastOpt uri ':' ≠ none := fun hn =>
        ((findLastOpt_eq_none_iff ':' uri).1 hn) hcmem
      cases hcl : findLastOpt uri ':' with
      | none => exact absurd hcl hcne
      | some j =>
        obtain ⟨r, hr⟩ := ctorOk_of_found uri i j hlen hfs hcl
        rw [hr] at herr
        cases herr
  · intro hnone
    refine ctor_of_parse_err uri _ ?_
    simp [parseUri, findSubN, findLastN, findCharN, hnone]

/-- Witness for the amended C8 at `"rest"` (no `"://"`): construction
fails with `UnsupportedUri`, matching the missing scheme separator. -/
theorem C8_fails_iff_no_scheme_sep_witness :
    ((strL "rest").length + 3 < npos) ∧
    (restCommandFacilityCtor (strL "rest") =
        .error CtorError.unsupportedUri ↔
      findSubOpt (strL "rest") schemeSepPat = none) := by
  exact ⟨by decide, C8_fails_iff_no_scheme_sep (strL "rest") (by decide)⟩

/-- C4 amended: a URI containing `"://"` (first occurrence at `i`) and a
last `':'` (at `j`) but no `'@'` at all is *not* rejected: `find('@')`
is never checked, so `at = npos`, the `size_t` arithmetic wraps
(`at+1 = 0`; the `at-(sep+3)` count exceeds the remainder and is clamped),
and parsing partially succeeds with `epname` = everything after `"://"`
and `hostname` = everything before the last `':'`; construction
completes. -/
theorem C4_missing_at_not_rejected (uri : Str) (i j : Nat)
    (hlen : uri.length + 3 < npos)
    (hat : findCharOpt uri '@' = none)
    (hsep : findSubOpt uri schemeSepPat = some i)
    (hcol : findLastOpt uri ':' = some j) :
    parseUri uri = .ok
      ⟨uri.take i, uri.drop (i + 3), uri.drop (j + 1),
       uri.drop (i + 3), uri.take j⟩ ∧
    ∃ r, restCommandFacilityCtor uri = .ok r := by
  have hp := parseUri_eq_of_found uri i j hlen hsep hcol
  have hatN : findCharN uri '@' = npos := by simp [findCharN, hat]
  have hi3 : i + 3 ≤ uri.length := by
    have h := findSubOpt_some_bound (by decide) hsep
    simpa [schemeSepPat] using h
  have hj : j < uri.length := findLastOpt_some_lt _ hcol
  have hW := npos_lt_szW
  have hsub1 : szSub npos (i + 3) = npos - (i + 3) :=
    szSub_eq_of_le hW (by omega)
  have hsubj : szSub j 0 = j := szSub_zero (by omega)
  rw [hatN, szAdd_npos_one, hsubj, hsub1] at hp
  have hep : (uri.drop (i + 3)).take (npos - (i + 3)) = uri.drop (i + 3) :=
    List.take_of_length_le (by rw [List.length_drop]; omega)
  rw [hep, List.drop_zero] at hp
  exact ⟨hp, ctorOk_of_found uri i j hlen hsep hcol⟩

/-- Witness for the amended C4 at `"rest://localhost:12345"`
(`"://"` at 4, last `':'` at 16, no `'@'`). -/
theorem C4_missing_at_not_rejected_witness :
    ((strL "rest://localhost:12345").length + 3 < npos) ∧
    findCharOpt (strL "rest://localhost:12345") '@' = none ∧
    findSubOpt (strL "rest://localhost:12345") schemeSepPat = some 4 ∧
    findLastOpt (strL "rest://localhost:12345") ':' = some 16 ∧
    (parseUri (strL "rest://localhost:12345") = .ok
      ⟨(strL "rest://localhost:12345").take 4,
       (strL "rest://localhost:12345").drop 7,
       (strL "rest://localhost:12345").drop 17,
       (strL "rest://localhost:12345").drop 7,
       (strL "rest://localhost:12345").take 16⟩ ∧
    ∃ r, restCommandFacilityCtor (strL "rest://localhost:12345") = .ok r) := by
  exact ⟨by decide, by rfl, by rfl, by rfl,
    C4_missing_at_not_rejected (strL "rest://localhost:12345") 4 16
      (by decide) (by rfl) (by rfl) (by rfl)⟩

/-- C6: for a URI of the exact form `scheme://name@host:port` — scheme
free of `':'` and `'@'`, name free of `'@'`, port text free of `':'` and
converting to an integer in [1, 65535] — parsing splits at the documented
separators: `scheme` before `"://"`, `name` between `"://"` and the first
`'@'`, `host` between `'@'` and the last `':'`, and the integer after the
last `':'` becomes the validated port handed to the endpoint together with
the host.  (The unused local `iname` is everything after `"://"`.)  The
witness instantiates this at `rest://ep1@localhost:12345` giving
`{rest, ep1, localhost, 12345}`. -/
theorem C6_wellformed_parse (scheme name host portstr uri : Str) (p : Int)
    (hc1 : (':' : Char) ∉ scheme) (ha1 : ('@' : Char) ∉ scheme)
    (ha2 : ('@' : Char) ∉ name) (hc2 : (':' : Char) ∉ portstr)
    (hstoi : stoi portstr = .ok p) (hlo : 1 ≤ p) (hhi : p ≤ 65535)
    (huri : uri =
      scheme ++ schemeSepPat ++ name ++ '@' :: (host ++ ':' :: portstr))
    (hlen : uri.length + 3 < npos) :
    parseUri uri = .ok
      ⟨scheme, name ++ '@' :: (host ++ ':' :: portstr), portstr,
        name, host⟩ ∧
    restCommandFacilityCtor uri = .ok
      ⟨⟨scheme, name ++ '@' :: (host ++ ':' :: portstr), portstr,
        name, host⟩, some (host, p)⟩ := by
  have hsep : findSubOpt uri schemeSepPat = some scheme.length := by
    have h1 : uri =
        scheme ++ ':' :: ('/' :: '/' :: (name ++ '@' :: (host ++ ':' :: portstr))) := by
      subst huri
      simp [schemeSepPat]
    rw [h1]
    exact findSubOpt_append_sep ':' ['/', '/'] scheme _ hc1 rfl
  have hat : findCharOpt uri '@' =
      some (scheme ++ ':' :: '/' :: '/' :: name).length := by
    have h2 : uri =
        (scheme ++ ':' :: '/' :: '/' :: name) ++ '@' :: (host ++ ':' :: portstr) := by
      subst huri
      simp [schemeSepPat]
    rw [h2]
    refine findCharOpt_append_sep '@' _ _ ?_
    simp only [List.mem_append, List.mem_cons]
    push_neg
    exact ⟨ha1, by decide, by decide, by decide, fun hm => ha2 hm⟩
  have hcol : findLastOpt uri ':' =
      some (scheme ++ ':' :: '/' :: '/' :: (name ++ '@' :: host)).length := by
    have h3 : uri =
        (scheme ++ ':' :: '/' :: '/' :: (name ++ '@' :: host)) ++ ':' :: portstr := by
      subst huri
      simp [schemeSepPat]
    rw [h3]
    exact findLastOpt_last_sep ':' _ portstr hc2
  have hKval : (scheme ++ ':' :: '/' :: '/' :: name).length =
      scheme.length + 3 + name.length := by
    simp only [List.length_append, List.length_cons, List.length_nil,
      schemeSepPat]
    omega
  have hJval : (scheme ++ ':' :: '/' :: '/' :: (name ++ '@' :: host)).length =
      scheme.length + 3 + name.length + 1 + host.length := by
    simp only [List.length_append, List.length_cons, List.length_nil,
      schemeSepPat]
    omega
  have hulen : uri.length =
      scheme.length + 3 + name.length + 1 + host.length + 1 +
        portstr.length := by
    subst huri
    simp only [List.length_append, List.length_cons, List.length_nil,
      schemeSepPat]
    omega
  have hW := npos_lt_szW
  have hp := parseUri_eq_of_found uri scheme.length
    (scheme ++ ':' :: '/' :: '/' :: (name ++ '@' :: host)).length hlen hsep hcol
  have hatN : findCharN uri '@' =
      (scheme ++ ':' :: '/' :: '/' :: name).length := by
    simp [findCharN, hat]
  rw [hatN, hKval, hJval] at hp
  have hKW : scheme.length + 3 + name.length + 1 < szW := by omega
  have haddK : szAdd (scheme.length + 3 + name.length) 1 =
      scheme.length + 3 + name.length + 1 :=
    szAdd_eq_of_lt (by omega)
  have hsubK : szSub (scheme.length + 3 + name.length) (scheme.length + 3) =
      name.length := by
    rw [szSub_eq_of_le (by omega) (by omega)]
    omega
  have hsubJ : szSub (scheme.length + 3 + name.length + 1 + host.length)
      (scheme.length + 3 + name.length + 1) = host.length := by
    rw [szSub_eq_of_le (by omega) (by omega)]
    omega
  rw [haddK, hsubK, hsubJ] at hp
  have e1 : uri.take scheme.length = scheme := by
    have h4 : uri =
        scheme ++ (schemeSepPat ++ name ++ '@' :: (host ++ ':' :: portstr)) := by
      subst huri
      simp
    rw [h4]
    exact List.take_left _ _
  have e2 : uri.drop (scheme.length + 3) =
      name ++ '@' :: (host ++ ':' :: portstr) := by
    have h5 : uri =
        (scheme ++ schemeSepPat) ++ (name ++ '@' :: (host ++ ':' :: portstr)) := by
      subst huri
      simp
    have hl5 : (scheme ++ schemeSepPat).length = scheme.length + 3 := by
      simp [schemeSepPat]
    rw [h5, ← hl5]
    exact List.drop_left _ _
  have e3 : uri.drop
      (scheme.length + 3 + name.length + 1 + host.length + 1) = portstr := by
    have h6 : uri =
        ((scheme ++ ':' :: '/' :: '/' :: (name ++ '@' :: host)) ++ [':']) ++
          portstr := by
      subst huri
      simp [schemeSepPat]
    have hl6 : ((scheme ++ ':' :: '/' :: '/' :: (name ++ '@' :: host)) ++
        [':']).length = scheme.length + 3 + name.length + 1 + host.length + 1 := by
      simp only [List.length_append, List.length_cons, List.length_nil,
        schemeSepPat]
      omega
    rw [h6, ← hl6]
    exact List.drop_left _ _
  have e4 : uri.drop (scheme.length + 3 + name.length + 1) =
      host ++ ':' :: portstr := by
    have h7 : uri =
        ((scheme ++ ':' :: '/' :: '/' :: name) ++ ['@']) ++
          (host ++ ':' :: portstr) := by
      subst huri
      simp [schemeSepPat]
    have hl7 : ((scheme ++ ':' :: '/' :: '/' :: name) ++ ['@']).length =
        scheme.length + 3 + name.length + 1 := by
      simp only [List.length_append, List.length_cons, List.length_nil,
        schemeSepPat]
      omega
    rw [h7, ← hl7]
    exact List.drop_left _ _
  have e5 : (name ++ '@' :: (host ++ ':' :: portstr)).take name.length =
      name := List.take_left _ _
  have e6 : (host ++ ':' :: portstr).take host.length = host :=
    List.take_left _ _
  rw [e1, e2, e3, e4, e5, e6] at hp
  have hport : (stoi portstr >>= ValidPort.portNumber) = .ok p := by
    rw [hstoi]
    show ValidPort.portNumber p = .ok p
    unfold ValidPort.portNumber
    rw [if_pos ⟨hlo, hhi⟩]
  refine ⟨hp, ?_⟩
  have := ctor_of_port_ok uri
    ⟨scheme, name ++ '@' :: (host ++ ':' :: portstr), portstr, name, host⟩
    p hp hport
  simpa using this

/-- Witness for C6 at the spec's scenario `rest://ep1@localhost:12345`:
scheme `"rest"`, name `"ep1"`, host `"localhost"`, port 12345. -/
theorem C6_wellformed_parse_witness :
    parseUri (strL "rest://ep1@localhost:12345") = .ok
      ⟨strL "rest", strL "ep1@localhost:12345", strL "12345",
        strL "ep1", strL "localhost"⟩ ∧
    restCommandFacilityCtor (strL "rest://ep1@localhost:12345") = .ok
      ⟨⟨strL "rest", strL "ep1@localhost:12345", strL "12345",
        strL "ep1", strL "localhost"⟩,
        some (strL "localhost", 12345)⟩ := by
  have h := C6_wellformed_parse (strL "rest") (strL "ep1") (strL "localhost")
    (strL "12345") (strL "rest://ep1@localhost:12345") 12345
    (by decide) (by decide) (by decide) (by decide) (by rfl)
    (by norm_num) (by norm_num) (by decide) (by decide)
  simpa using h

/-- C10: the callback dereferences `manager_ptr_` unconditionally, the
pointer is installed only at the top of `run(manager)` and nulled when
`run` returns, and the constructor never initialises it; so the callback
yields a well-defined `CommandResult` exactly when invoked with a manager
installed, and a command arriving after construction but before `run`, or
after `run` returns, hits a null or uninitialized pointer (modelled:
`none`, no defined result). -/
theorem C10_manager_pointer_window {J : Type} (jparse : Str → Except Str J)
    (command ansaddr : Str) (port : Int) :
    (commandHandlerViaPtr (ctorManagerState J).manager_ptr_ jparse
        command ansaddr port = none) ∧
    (∀ s : FacilityManagerState J,
      commandHandlerViaPtr (runExit s).manager_ptr_ jparse
        command ansaddr port = none) ∧
    (∀ (s : FacilityManagerState J) (m : J → Except Str Unit),
      (commandHandlerViaPtr (runEntry s m).manager_ptr_ jparse
        command ansaddr port).isSome = true) := by
  refine ⟨rfl, fun s => rfl, fun s m => rfl⟩

end RestCommandFacility
